import Mathlib

/-!
Verification development for the rust-in-typescript repository.

The visible sources of the repository are the acceptance corpus under
`src/examples` (four Rust-subset programs).  The checker/evaluator that the
specification describes is an external part of the repository that is not
shipped under `src/`, so every definition of the checking and evaluation
pipeline below is modelled from the specification (sections 3, 4, 7 of
`spec.md`); the four corpus programs themselves are transcribed directly from
the sources under `src/examples`.
-/

namespace RustSubset

/-- Borrow kinds: shared (read-only, many allowed) or exclusive (read-write,
singular), as in the spec's data model. -/
inductive BKind
| shared
| exclusive
deriving DecidableEq, Repr

/-- Modelled from the spec: a semantic place — an addressable storage
location, identified by its root local variable and the number of box
dereference steps below that root ("places form a tree rooted at locals"). -/
structure SPlace where
  root : String
  path : Nat
deriving DecidableEq, Repr

/-- Modelled from the spec (section 7): the diagnostic taxonomy of the borrow
checker, plus the evaluator's dynamic `StackExhausted` failure and an
`unsupported` catch-all for trees outside the modelled subset. -/
inductive Violation
| conflictingBorrow (p : SPlace)
| useAfterMove (p : SPlace)
| assignWhileBorrowed (p : SPlace)
| assignImmutable (p : SPlace)
| danglingBorrow (p : SPlace)
| stackExhausted
| unsupported
deriving DecidableEq, Repr

/-- Modelled from the spec: a borrow record — borrowed place, kind, and the
originating binding that holds the reference (its lexical extent). -/
structure Borrow where
  id : Nat
  place : SPlace
  kind : BKind
  holder : String
deriving DecidableEq, Repr

/-- Modelled from the spec: the Ownership/Borrow State Tracker's state —
outstanding borrow records, the set of moved places, and a fresh-id counter. -/
structure TrackerState where
  borrows : List Borrow
  moved : List SPlace
  fresh : Nat
deriving DecidableEq, Repr

/-- The empty tracker state. -/
def TrackerState.init : TrackerState := ⟨[], [], 0⟩

/-- Boolean membership of a place in a place list. -/
def memP (l : List SPlace) (p : SPlace) : Bool :=
  l.any (fun q => decide (q = p))

/-- Modelled from the spec: a new borrow of kind `k` on place `p` conflicts
when it would violate tracker invariants 1/2 — an exclusive borrow excludes
every other borrow on the same place. -/
def borrowConflict (bs : List Borrow) (p : SPlace) (k : BKind) : Bool :=
  bs.any (fun b =>
    decide (b.place = p) &&
      (decide (b.kind = BKind.exclusive) || decide (k = BKind.exclusive)))

/-- Modelled from the spec: `canRead` fails with `UseAfterMove` when the place
is in the moved state. -/
def canReadT (ts : TrackerState) (p : SPlace) : Except Violation Unit :=
  if memP ts.moved p then .error (.useAfterMove p) else .ok ()

/-- Modelled from the spec: `beginBorrow` fails with `UseAfterMove` if the
place is moved, with `ConflictingBorrow` if invariant 1/2 would be violated,
and otherwise records a fresh borrow. -/
def beginBorrowT (ts : TrackerState) (p : SPlace) (k : BKind) (holder : String) :
    Except Violation (Nat × TrackerState) :=
  if memP ts.moved p then .error (.useAfterMove p)
  else if borrowConflict ts.borrows p k then .error (.conflictingBorrow p)
  else .ok (ts.fresh, ⟨⟨ts.fresh, p, k, holder⟩ :: ts.borrows, ts.moved, ts.fresh + 1⟩)

/-- Modelled from the spec: `endBorrow` releases the borrow with the given id. -/
def endBorrowT (ts : TrackerState) (id : Nat) : TrackerState :=
  { ts with borrows := ts.borrows.filter (fun b => decide (b.id ≠ id)) }

/-- Modelled from the spec: `markMoved` puts a place into the moved state. -/
def markMovedT (ts : TrackerState) (p : SPlace) : TrackerState :=
  { ts with moved := p :: ts.moved }

/-- Modelled from the spec: `markLive` resets a place to live (reassignment)
and invalidates all outstanding borrows rooted at it. -/
def markLiveT (ts : TrackerState) (p : SPlace) : TrackerState :=
  { ts with
    moved := ts.moved.filter (fun q => decide (q ≠ p)),
    borrows := ts.borrows.filter
      (fun b => decide (¬ (b.place.root = p.root ∧ p.path ≤ b.place.path))) }

/-- Moved-state check along the whole prefix chain of a place: reading `*p`
requires every place from the root down to `p` to be live; the diagnostic
references the outermost moved prefix. -/
def movedCheckAux (ts : TrackerState) (root : String) : Nat → Except Violation Unit
| 0 => canReadT ts ⟨root, 0⟩
| k + 1 => do
    movedCheckAux ts root k
    canReadT ts ⟨root, k + 1⟩

/-- Transitive moved-state check for a place (its root and all intermediate
box cells must be live). -/
def movedCheck (ts : TrackerState) (p : SPlace) : Except Violation Unit :=
  movedCheckAux ts p.root p.path

/-- One abstract tracker operation, as exercised by the property test of the
spec ("random borrow/release sequences"): begin/end a borrow, mark moved,
mark live. -/
inductive TOp
| begin (p : SPlace) (k : BKind) (holder : String)
| endB (id : Nat)
| move (p : SPlace)
| live (p : SPlace)

/-- Apply one tracker operation; a rejected `beginBorrow` leaves the state
unchanged (the violation is reported, no record is created). -/
def trackStep (ts : TrackerState) : TOp → TrackerState
| .begin p k h =>
    match beginBorrowT ts p k h with
    | .ok r => r.2
    | .error _ => ts
| .endB id => endBorrowT ts id
| .move p => markMovedT ts p
| .live p => markLiveT ts p

/-- Run a sequence of tracker operations from the empty state; the results
are exactly the reachable tracker states. -/
def trackRun (ops : List TOp) : TrackerState :=
  ops.foldl trackStep TrackerState.init

/-- Number of active exclusive borrows on a place. -/
def exclCount (bs : List Borrow) (p : SPlace) : Nat :=
  bs.countP (fun b => decide (b.place = p) && decide (b.kind = BKind.exclusive))

/-- Number of active shared borrows on a place. -/
def sharedCount (bs : List Borrow) (p : SPlace) : Nat :=
  bs.countP (fun b => decide (b.place = p) && decide (b.kind = BKind.shared))

/-- Tracker invariants 1 and 2 of the spec: at most one exclusive borrow per
place, and never an exclusive and a shared borrow on the same place at once. -/
def TrackerInv (ts : TrackerState) : Prop :=
  ∀ p : SPlace, exclCount ts.borrows p ≤ 1 ∧
    (exclCount ts.borrows p = 0 ∨ sharedCount ts.borrows p = 0)

/-- Syntactic place expressions: a local variable or a dereference of a place
expression (the assignment targets and borrow operands of the subset). -/
inductive PlaceExpr
| var (x : String)
| deref (p : PlaceExpr)

/-- Modelled from the spec: the static shape of a value as tracked by the
checker — integer, boolean (comparison results), a single owned heap box, or
a reference denoting a place plus a borrow kind. -/
inductive SVal
| int
| bool
| box (inner : SVal)
| ref (target : SPlace) (excl : Bool)
deriving DecidableEq, Repr

/-- Expressions of the Rust subset exercised by the corpus. -/
inductive Expr
| lit (n : Int)
| read (p : PlaceExpr)
| addE (a b : Expr)
| subE (a b : Expr)
| eqE (a b : Expr)
| refE (excl : Bool) (p : PlaceExpr)
| boxNew (e : Expr)
| derefE (e : Expr)
| call (f : String) (args : List Expr)

/-- Statements of the Rust subset exercised by the corpus. -/
inductive Stmt
| letDecl (isMut : Bool) (x : String) (e : Expr)
| assign (p : PlaceExpr) (e : Expr)
| display (e : Expr)
| ret (e : Expr)
| ite (c : Expr) (thn : List Stmt) (els : List Stmt)

/-- A function declaration: name, parameters with their static shapes, the
return shape, and the body. -/
structure FnDecl where
  name : String
  params : List (String × SVal)
  ret : SVal
  body : List Stmt

/-- A whole program: auxiliary function declarations plus the body of `main`. -/
structure Program where
  fns : List FnDecl
  mainBody : List Stmt

/-- Modelled from the spec: the Borrow Checker's state — the static binding
environment (name, mutability flag, static value shape) together with the
tracker state it maintains "as if executing". -/
structure CheckState where
  env : List (String × Bool × SVal)
  tr : TrackerState

/-- Look up a binding in the static environment (innermost first). -/
def lookupVar : List (String × Bool × SVal) → String → Option (Bool × SVal)
| [], _ => none
| (y, mu, sv) :: rest, x => if y == x then some (mu, sv) else lookupVar rest x

/-- Descend a static value through `n` box layers. -/
def SVal.descend : SVal → Nat → Option SVal
| v, 0 => some v
| .box w, n + 1 => w.descend n
| _, _ + 1 => none

/-- Replace the static value found `n` box layers down. -/
def SVal.updateAt : SVal → Nat → SVal → Option SVal
| _, 0, nv => some nv
| .box w, n + 1, nv => (w.updateAt n nv).map .box
| _, _ + 1, _ => none

/-- The static value stored at a semantic place. -/
def svalAt (st : CheckState) (p : SPlace) : Option SVal :=
  match lookupVar st.env p.root with
  | some (_, sv) => sv.descend p.path
  | none => none

/-- Update the static environment at a semantic place. -/
def setEnvVal : List (String × Bool × SVal) → SPlace → SVal →
    Option (List (String × Bool × SVal))
| [], _, _ => none
| (y, mu, sv) :: rest, p, nv =>
    if y == p.root then (sv.updateAt p.path nv).map (fun sv2 => (y, mu, sv2) :: rest)
    else (setEnvVal rest p nv).map (fun r => (y, mu, sv) :: r)

/-- Modelled from the spec: an exclusive borrow on `target` held by a binding
other than the ones on the current access path makes a read through that path
conflict ("not exclusively borrowed by someone else"). -/
def hasForeignExcl (bs : List Borrow) (target : SPlace) (hs : List String) : Bool :=
  bs.any (fun b =>
    decide (b.place = target) && decide (b.kind = BKind.exclusive) && !(hs.contains b.holder))

/-- Modelled from the spec: `canWrite` fails with `AssignWhileBorrowed` if any
active borrow exists on the place or any place nested under it, except the
borrows through which the write itself is performed (the access path). -/
def writeConflict (bs : List Borrow) (sp : SPlace) (hs : List String) : Bool :=
  bs.any (fun b =>
    b.place.root == sp.root && decide (sp.path ≤ b.place.path) && !(hs.contains b.holder))

/-- Modelled from the spec: resolve a syntactic place to a semantic place,
collecting the bindings whose references the path traverses; dereferencing a
reference requires its target to be live and not exclusively borrowed by a
binding off the access path. -/
def resolvePlace (st : CheckState) : PlaceExpr → Except Violation (SPlace × List String)
| .var x =>
    match lookupVar st.env x with
    | some _ => .ok (⟨x, 0⟩, [])
    | none => .error .unsupported
| .deref pe => do
    let (q, hs) ← resolvePlace st pe
    match svalAt st q with
    | some (.box _) => .ok (⟨q.root, q.path + 1⟩, hs)
    | some (.ref target _) => do
        let hs2 := if q.path == 0 then q.root :: hs else hs
        movedCheck st.tr target
        if hasForeignExcl st.tr.borrows target hs2 then
          throw (.conflictingBorrow target)
        else
          .ok (target, hs2)
    | _ => .error .unsupported

/-- Moved-state check for the strict prefixes of an assignment target: the
target itself may be moved (reassignment resets it to live), but every place
above it must be live. -/
def strictPrefixMovedCheck (ts : TrackerState) (p : SPlace) : Except Violation Unit :=
  match p.path with
  | 0 => .ok ()
  | k + 1 => movedCheckAux ts p.root k

/-- Defunctionalised input of the checker's single depth-first walk: check an
expression, the right-hand side of a binding/assignment/argument (which may
move a box out of its source place), an argument list, one statement, or a
statement sequence. -/
inductive CheckIn
| expr (holder : String) (e : Expr)
| rhs (holder : String) (e : Expr)
| args (es : List Expr)
| stmt (s : Stmt)
| stmts (ss : List Stmt)

/-- Modelled from the spec (section 4.2): the Borrow Checker's single
depth-first walk over the tree, maintaining the tracker state as if
executing and aborting at the first violation.  The `Nat` argument is plain
recursion fuel for the walk (any fuel at least the tree depth behaves
identically); statement inputs return a dummy `SVal.int`. -/
def checkF : Nat → List FnDecl → CheckState → CheckIn → Except Violation (SVal × CheckState)
| 0, _, _, _ => .error .unsupported
| Nat.succ f, ctx, st, inp =>
  match inp with
  | .expr holder e =>
    match e with
    | .lit _ => .ok (.int, st)
    | .read pe => do
        let (sp, _) ← resolvePlace st pe
        movedCheck st.tr sp
        match svalAt st sp with
        | some sv => .ok (sv, st)
        | none => .error .unsupported
    | .addE a b => do
        let (_, st1) ← checkF f ctx st (.expr holder a)
        let (_, st2) ← checkF f ctx st1 (.expr holder b)
        .ok (.int, st2)
    | .subE a b => do
        let (_, st1) ← checkF f ctx st (.expr holder a)
        let (_, st2) ← checkF f ctx st1 (.expr holder b)
        .ok (.int, st2)
    | .eqE a b => do
        let (_, st1) ← checkF f ctx st (.expr holder a)
        let (_, st2) ← checkF f ctx st1 (.expr holder b)
        .ok (.bool, st2)
    | .refE excl pe => do
        let (sp, _) ← resolvePlace st pe
        movedCheck st.tr sp
        if excl then
          match lookupVar st.env sp.root with
          | some (true, _) => pure ()
          | some (false, _) => throw (.assignImmutable sp)
          | none => throw .unsupported
        else pure ()
        let (_, tr2) ← beginBorrowT st.tr sp (if excl then .exclusive else .shared) holder
        .ok (.ref sp excl, { st with tr := tr2 })
    | .boxNew e1 => do
        let (sv, st1) ← checkF f ctx st (.expr holder e1)
        .ok (.box sv, st1)
    | .derefE e1 => do
        let (sv, st1) ← checkF f ctx st (.expr holder e1)
        match sv with
        | .box inner => .ok (inner, st1)
        | .ref target _ => do
            movedCheck st1.tr target
            if hasForeignExcl st1.tr.borrows target [holder] then
              throw (.conflictingBorrow target)
            else
              match svalAt st1 target with
              | some sv2 => .ok (sv2, st1)
              | none => .error .unsupported
        | _ => .error .unsupported
    | .call fname es => do
        let (_, st1) ← checkF f ctx st (.args es)
        match ctx.find? (fun fd => fd.name == fname) with
        | some fd => .ok (fd.ret, st1)
        | none => .error .unsupported
  | .rhs holder e =>
    match e with
    | .read pe => do
        let (sp, _) ← resolvePlace st pe
        movedCheck st.tr sp
        match svalAt st sp with
        | some sv@(.box _) => .ok (sv, { st with tr := markMovedT st.tr sp })
        | some sv => .ok (sv, st)
        | none => .error .unsupported
    | _ => checkF f ctx st (.expr holder e)
  | .args es =>
    match es with
    | [] => .ok (.int, st)
    | e :: rest => do
        let (_, st1) ← checkF f ctx st (.rhs "" e)
        checkF f ctx st1 (.args rest)
  | .stmt s =>
    match s with
    | .letDecl isMut x e => do
        let (sv, st1) ← checkF f ctx st (.rhs x e)
        .ok (.int, { st1 with env := (x, isMut, sv) :: st1.env })
    | .assign pe e => do
        let (sp, hs) ← resolvePlace st pe
        if writeConflict st.tr.borrows sp hs then
          throw (.assignWhileBorrowed sp)
        else pure ()
        match lookupVar st.env sp.root with
        | some (true, _) => pure ()
        | some (false, _) => throw (.assignImmutable sp)
        | none => throw .unsupported
        strictPrefixMovedCheck st.tr sp
        let (sv, st1) ← checkF f ctx st (.rhs "" e)
        match setEnvVal st1.env sp sv with
        | some env2 =>
            let tr2 := if memP st1.tr.moved sp then markLiveT st1.tr sp else st1.tr
            .ok (.int, ⟨env2, tr2⟩)
        | none => .error .unsupported
    | .display e => do
        let (_, st1) ← checkF f ctx st (.expr "" e)
        .ok (.int, st1)
    | .ret e => do
        let (_, st1) ← checkF f ctx st (.rhs "" e)
        .ok (.int, st1)
    | .ite c thn els => do
        let (_, st1) ← checkF f ctx st (.expr "" c)
        let _ ← checkF f ctx st1 (.stmts thn)
        let _ ← checkF f ctx st1 (.stmts els)
        .ok (.int, st1)
  | .stmts ss =>
    match ss with
    | [] => .ok (.int, st)
    | s :: rest => do
        let (_, st1) ← checkF f ctx st (.stmt s)
        checkF f ctx st1 (.stmts rest)

/-- Check one function body: parameters bind fresh immutable places for the
activation, then the body is walked with the same static rules. -/
def checkFn (fuel : Nat) (ctx : List FnDecl) (fd : FnDecl) : Except Violation Unit := do
  let st0 : CheckState := ⟨fd.params.map (fun pr => (pr.1, false, pr.2)), TrackerState.init⟩
  let _ ← checkF fuel ctx st0 (.stmts fd.body)
  .ok ()

/-- Check every declared function once with the same static rules (recursive
calls need no static special-casing). -/
def checkFns (fuel : Nat) (ctx : List FnDecl) : List FnDecl → Except Violation Unit
| [] => .ok ()
| fd :: rest => do
    checkFn fuel ctx fd
    checkFns fuel ctx rest

/-- Modelled from the spec: the whole static pass — check every function body
and the body of `main`; the result is "accepted" or the first diagnostic in
left-to-right depth-first order. -/
def checkProgramF (fuel : Nat) (p : Program) : Except Violation Unit := do
  checkFns fuel p.fns p.fns
  let _ ← checkF fuel p.fns ⟨[], TrackerState.init⟩ (.stmts p.mainBody)
  .ok ()

/-- A runtime place: the activation frame (counted from the bottom of the
stack), the root local in that frame, and the box-dereference depth. -/
structure RPlace where
  frame : Nat
  root : String
  path : Nat
deriving DecidableEq, Repr

/-- Modelled from the spec: runtime values — integer, boolean, a single owned
heap box, or a reference denoting a runtime place plus a borrow kind. -/
inductive Value
| int (n : Int)
| bool (b : Bool)
| box (v : Value)
| ref (target : RPlace) (excl : Bool)
deriving DecidableEq, Repr

/-- Modelled from the spec: the Evaluator's state — the stack of activation
frames (top first; each frame maps bindings to stored values) and the output
sequence collected so far, in program order. -/
structure EState where
  frames : List (List (String × Value))
  out : List Int
deriving DecidableEq, Repr

/-- Index of the current (top) activation frame, counted from the bottom. -/
def EState.cur (st : EState) : Nat := st.frames.length - 1

/-- Fetch the frame with the given bottom-up index. -/
def getFrame (st : EState) (i : Nat) : Option (List (String × Value)) :=
  st.frames.get? (st.frames.length - 1 - i)

/-- Replace the frame with the given bottom-up index. -/
def setFrame (st : EState) (i : Nat) (fr : List (String × Value)) : EState :=
  { st with frames := st.frames.set (st.frames.length - 1 - i) fr }

/-- Descend a runtime value through `n` box layers. -/
def Value.descend : Value → Nat → Option Value
| v, 0 => some v
| .box w, n + 1 => w.descend n
| _, _ + 1 => none

/-- Replace the runtime value found `n` box layers down. -/
def Value.updateAt : Value → Nat → Value → Option Value
| _, 0, nv => some nv
| .box w, n + 1, nv => (w.updateAt n nv).map .box
| _, _ + 1, _ => none

/-- Replace the value bound to a name in a frame. -/
def updAssoc : List (String × Value) → String → Value → Option (List (String × Value))
| [], _, _ => none
| (y, w) :: rest, x, v =>
    if y == x then some ((y, v) :: rest)
    else (updAssoc rest x v).map (fun r => (y, w) :: r)

/-- Read the value stored at a runtime place. -/
def readPlace (st : EState) (rp : RPlace) : Option Value := do
  let fr ← getFrame st rp.frame
  let (_, v) ← fr.find? (fun pr => pr.1 == rp.root)
  v.descend rp.path

/-- Modelled from the spec: assignment through a place mutates the referenced
stored value directly (reference semantics, not copy). -/
def writePlace (st : EState) (rp : RPlace) (v : Value) : Option EState := do
  let fr ← getFrame st rp.frame
  let (_, old) ← fr.find? (fun pr => pr.1 == rp.root)
  let nv ← old.updateAt rp.path v
  let fr2 ← updAssoc fr rp.root nv
  some (setFrame st rp.frame fr2)

/-- Resolve a syntactic place at runtime: a variable names a slot of the
current frame; dereferencing a box steps into its heap cell, dereferencing a
reference jumps to the referenced place. -/
def resolvePlaceE (st : EState) : PlaceExpr → Option RPlace
| .var x => some ⟨st.cur, x, 0⟩
| .deref pe => do
    let rp ← resolvePlaceE st pe
    let v ← readPlace st rp
    match v with
    | .box _ => some ⟨rp.frame, rp.root, rp.path + 1⟩
    | .ref target _ => some target
    | _ => none

/-- Result of one evaluation step: an expression value, an argument list, a
statement that falls through, or a statement that hit `return`. -/
inductive ERes
| val (v : Value) (st : EState)
| vals (vs : List Value) (st : EState)
| next (st : EState)
| retv (v : Value) (st : EState)

/-- Extract an expression value from an evaluation result. -/
def ERes.asVal : ERes → Except Violation (Value × EState)
| .val v st => .ok (v, st)
| _ => .error .unsupported

/-- Extract an integer from an evaluation result. -/
def ERes.asInt : ERes → Except Violation (Int × EState)
| .val (.int n) st => .ok (n, st)
| _ => .error .unsupported

/-- Extract an argument list from an evaluation result. -/
def ERes.asVals : ERes → Except Violation (List Value × EState)
| .vals vs st => .ok (vs, st)
| _ => .error .unsupported

/-- Defunctionalised input of the evaluator's walk: an expression, an
argument list, one statement, or a statement sequence. -/
inductive EvalIn
| expr (e : Expr)
| args (es : List Expr)
| stmt (s : Stmt)
| stmts (ss : List Stmt)

/-- Modelled from the spec (section 4.3): the tree-walking Evaluator over an
accepted program, maintaining the frame stack and producing the output
sequence in program order.  The `Nat` argument is the configurable recursion
safety ceiling; exhausting it fails the run with `StackExhausted`. -/
def evalF : Nat → List FnDecl → EState → EvalIn → Except Violation ERes
| 0, _, _, _ => .error .stackExhausted
| Nat.succ f, ctx, st, inp =>
  match inp with
  | .expr e =>
    match e with
    | .lit n => .ok (.val (.int n) st)
    | .read pe =>
        match resolvePlaceE st pe with
        | some rp =>
            match readPlace st rp with
            | some v => .ok (.val v st)
            | none => .error .unsupported
        | none => .error .unsupported
    | .addE a b => do
        let (n1, st1) ← (← evalF f ctx st (.expr a)).asInt
        let (n2, st2) ← (← evalF f ctx st1 (.expr b)).asInt
        .ok (.val (.int (n1 + n2)) st2)
    | .subE a b => do
        let (n1, st1) ← (← evalF f ctx st (.expr a)).asInt
        let (n2, st2) ← (← evalF f ctx st1 (.expr b)).asInt
        .ok (.val (.int (n1 - n2)) st2)
    | .eqE a b => do
        let (n1, st1) ← (← evalF f ctx st (.expr a)).asInt
        let (n2, st2) ← (← evalF f ctx st1 (.expr b)).asInt
        .ok (.val (.bool (decide (n1 = n2))) st2)
    | .refE excl pe =>
        match resolvePlaceE st pe with
        | some rp => .ok (.val (.ref rp excl) st)
        | none => .error .unsupported
    | .boxNew e1 => do
        let (v, st1) ← (← evalF f ctx st (.expr e1)).asVal
        .ok (.val (.box v) st1)
    | .derefE e1 => do
        let (v, st1) ← (← evalF f ctx st (.expr e1)).asVal
        match v with
        | .box w => .ok (.val w st1)
        | .ref target _ =>
            match readPlace st1 target with
            | some w => .ok (.val w st1)
            | none => .error .unsupported
        | _ => .error .unsupported
    | .call fname es => do
        let (vs, st1) ← (← evalF f ctx st (.args es)).asVals
        match ctx.find? (fun fd => fd.name == fname) with
        | some fd => do
            let frame := (fd.params.map Prod.fst).zip vs
            let st2 := { st1 with frames := frame :: st1.frames }
            let r ← evalF f ctx st2 (.stmts fd.body)
            match r with
            | .retv v st3 => .ok (.val v { st3 with frames := st3.frames.tail })
            | _ => .error .unsupported
        | none => .error .unsupported
  | .args es =>
    match es with
    | [] => .ok (.vals [] st)
    | e :: rest => do
        let (v, st1) ← (← evalF f ctx st (.expr e)).asVal
        let (vs, st2) ← (← evalF f ctx st1 (.args rest)).asVals
        .ok (.vals (v :: vs) st2)
  | .stmt s =>
    match s with
    | .letDecl _ x e => do
        let (v, st1) ← (← evalF f ctx st (.expr e)).asVal
        match st1.frames with
        | fr :: rest => .ok (.next { st1 with frames := ((x, v) :: fr) :: rest })
        | [] => .error .unsupported
    | .assign pe e => do
        let (v, st1) ← (← evalF f ctx st (.expr e)).asVal
        match resolvePlaceE st1 pe with
        | some rp =>
            match writePlace st1 rp v with
            | some st2 => .ok (.next st2)
            | none => .error .unsupported
        | none => .error .unsupported
    | .display e => do
        let (n, st1) ← (← evalF f ctx st (.expr e)).asInt
        .ok (.next { st1 with out := st1.out ++ [n] })
    | .ret e => do
        let (v, st1) ← (← evalF f ctx st (.expr e)).asVal
        .ok (.retv v st1)
    | .ite c thn els => do
        let (v, st1) ← (← evalF f ctx st (.expr c)).asVal
        match v with
        | .bool true => evalF f ctx st1 (.stmts thn)
        | .bool false => evalF f ctx st1 (.stmts els)
        | _ => .error .unsupported
  | .stmts ss =>
    match ss with
    | [] => .ok (.next st)
    | s :: rest => do
        let r ← evalF f ctx st (.stmt s)
        match r with
        | .next st1 => evalF f ctx st1 (.stmts rest)
        | .retv v st1 => .ok (.retv v st1)
        | _ => .error .unsupported

/-- Modelled from the spec: run an accepted program's `main` body in a fresh
frame and collect its output sequence. -/
def evalProgramF (fuel : Nat) (p : Program) : Except Violation (List Int) := do
  let r ← evalF fuel p.fns ⟨[[]], []⟩ (.stmts p.mainBody)
  match r with
  | .next st => .ok st.out
  | .retv _ st => .ok st.out
  | _ => .error .unsupported

/-- Modelled from the spec: the whole pipeline — borrow-check first; only an
accepted program is evaluated, and a rejected one yields exactly the first
diagnostic and no output. -/
def runF (fuel : Nat) (p : Program) : Except Violation (List Int) :=
  match checkProgramF fuel p with
  | .error d => .error d
  | .ok _ => evalProgramF fuel p

/-- The body of `fn add` from `src/examples/recursion.rs`: if `y == 0` return
`x`, else return `add(x + 1, y - 1)`. -/
def addBody : List Stmt :=
  [Stmt.ite (Expr.eqE (Expr.read (PlaceExpr.var "y")) (Expr.lit 0))
    [Stmt.ret (Expr.read (PlaceExpr.var "x"))]
    [Stmt.ret (Expr.call "add"
      [Expr.addE (Expr.read (PlaceExpr.var "x")) (Expr.lit 1),
       Expr.subE (Expr.read (PlaceExpr.var "y")) (Expr.lit 1)])]]

/-- The declaration of `fn add(x: i32, y: i32) -> i32` from
`src/examples/recursion.rs`. -/
def addDecl : FnDecl := ⟨"add", [("x", SVal.int), ("y", SVal.int)], SVal.int, addBody⟩

/-- The program `src/examples/recursion.rs`: `let a = 32; let b = 64;
let c = add(a, b); displayi32(c);`. -/
def recursionProgram : Program :=
  ⟨[addDecl],
   [Stmt.letDecl false "a" (Expr.lit 32),
    Stmt.letDecl false "b" (Expr.lit 64),
    Stmt.letDecl false "c" (Expr.call "add"
      [Expr.read (PlaceExpr.var "a"), Expr.read (PlaceExpr.var "b")]),
    Stmt.display (Expr.read (PlaceExpr.var "c"))]⟩

/-- The program `src/examples/testcase6.rs`: `let mut a: Box<i32> =
Box::new(32); let b: &Box<i32> = &a; displayi32(**b); *a = 48;
displayi32(*a);` with declared output `32 48`. -/
def testcase6Program : Program :=
  ⟨[],
   [Stmt.letDecl true "a" (Expr.boxNew (Expr.lit 32)),
    Stmt.letDecl false "b" (Expr.refE false (PlaceExpr.var "a")),
    Stmt.display (Expr.read (PlaceExpr.deref (PlaceExpr.deref (PlaceExpr.var "b")))),
    Stmt.assign (PlaceExpr.deref (PlaceExpr.var "a")) (Expr.lit 48),
    Stmt.display (Expr.read (PlaceExpr.deref (PlaceExpr.var "a")))]⟩

/-- The program `src/examples/borrow1.rs`: `let mut a = 32; let b = &a;
a = 64; let c = &mut a; println a; println b; *c += 1; println c;` (the
prints are modelled as display operations). -/
def borrow1Program : Program :=
  ⟨[],
   [Stmt.letDecl true "a" (Expr.lit 32),
    Stmt.letDecl false "b" (Expr.refE false (PlaceExpr.var "a")),
    Stmt.assign (PlaceExpr.var "a") (Expr.lit 64),
    Stmt.letDecl false "c" (Expr.refE true (PlaceExpr.var "a")),
    Stmt.display (Expr.read (PlaceExpr.var "a")),
    Stmt.display (Expr.read (PlaceExpr.deref (PlaceExpr.var "b"))),
    Stmt.assign (PlaceExpr.deref (PlaceExpr.var "c"))
      (Expr.addE (Expr.read (PlaceExpr.deref (PlaceExpr.var "c"))) (Expr.lit 1)),
    Stmt.display (Expr.read (PlaceExpr.deref (PlaceExpr.var "c")))]⟩

/-- The program `src/examples/additional/borrow.rs`: `let mut owner =
Box::new(32); let immutable_ref = &owner; displayi32(**immutable_ref);
let mutable_ref = &mut owner; **mutable_ref = 48; displayi32(**&owner);
let moved: Box<i32> = owner; displayi32(*moved);`. -/
def additionalBorrowProgram : Program :=
  ⟨[],
   [Stmt.letDecl true "owner" (Expr.boxNew (Expr.lit 32)),
    Stmt.letDecl false "immutable_ref" (Expr.refE false (PlaceExpr.var "owner")),
    Stmt.display (Expr.read (PlaceExpr.deref (PlaceExpr.deref (PlaceExpr.var "immutable_ref")))),
    Stmt.letDecl false "mutable_ref" (Expr.refE true (PlaceExpr.var "owner")),
    Stmt.assign (PlaceExpr.deref (PlaceExpr.deref (PlaceExpr.var "mutable_ref"))) (Expr.lit 48),
    Stmt.display (Expr.derefE (Expr.derefE (Expr.refE false (PlaceExpr.var "owner")))),
    Stmt.letDecl false "moved" (Expr.read (PlaceExpr.var "owner")),
    Stmt.display (Expr.read (PlaceExpr.deref (PlaceExpr.var "moved")))]⟩

/-- The scenario fragment of the spec (and claim C6): `let mut a = 32;
let b = &mut a; *b = 48;` followed by a read of `a`. -/
def mutThroughRefProgram : Program :=
  ⟨[],
   [Stmt.letDecl true "a" (Expr.lit 32),
    Stmt.letDecl false "b" (Expr.refE true (PlaceExpr.var "a")),
    Stmt.assign (PlaceExpr.deref (PlaceExpr.var "b")) (Expr.lit 48),
    Stmt.display (Expr.read (PlaceExpr.var "a"))]⟩

/-- The mutation-through-exclusive-reference core of
`src/examples/additional/borrow.rs`: `let mut owner = Box::new(32);
let mutable_ref = &mut owner; **mutable_ref = 48; displayi32(*owner);` — the
write through the exclusive reference makes the later read of the owner's
box yield 48. -/
def boxMutThroughRefProgram : Program :=
  ⟨[],
   [Stmt.letDecl true "owner" (Expr.boxNew (Expr.lit 32)),
    Stmt.letDecl false "mutable_ref" (Expr.refE true (PlaceExpr.var "owner")),
    Stmt.assign (PlaceExpr.deref (PlaceExpr.deref (PlaceExpr.var "mutable_ref"))) (Expr.lit 48),
    Stmt.display (Expr.read (PlaceExpr.deref (PlaceExpr.var "owner")))]⟩

/-- A program that reads a place after moving out of it: `let mut owner =
Box::new(32); let moved = owner; displayi32(*owner);`. -/
def useAfterMoveProgram : Program :=
  ⟨[],
   [Stmt.letDecl true "owner" (Expr.boxNew (Expr.lit 32)),
    Stmt.letDecl false "moved" (Expr.read (PlaceExpr.var "owner")),
    Stmt.display (Expr.read (PlaceExpr.deref (PlaceExpr.var "owner")))]⟩

/-- A program that reads through the destination of a move: `let mut owner =
Box::new(32); let moved = owner; displayi32(*moved);` (the tail of
`src/examples/additional/borrow.rs`). -/
def moveDestProgram : Program :=
  ⟨[],
   [Stmt.letDecl true "owner" (Expr.boxNew (Expr.lit 32)),
    Stmt.letDecl false "moved" (Expr.read (PlaceExpr.var "owner")),
    Stmt.display (Expr.read (PlaceExpr.deref (PlaceExpr.var "moved")))]⟩

/-- Shallow embedding of `fn add` from `src/examples/recursion.rs` for a
non-negative second argument: `if y == 0 { return x } else
{ return add(x + 1, y - 1) }`; the second argument counts down to zero, so
the recursion is structural. -/
def addFun (x : Int) : Nat → Int
| 0 => x
| Nat.succ n => addFun (x + 1) n

/-- Two independent runs of the checker on the same program: the checker is a
pure function of its input, so no hidden state can persist between runs. -/
def checkRunPair (fuel : Nat) (p : Program) : Except Violation Unit × Except Violation Unit :=
  (checkProgramF fuel p, checkProgramF fuel p)

/-- The predicate counted by `exclCount`. -/
def exclPred (p : SPlace) (b : Borrow) : Bool :=
  decide (b.place = p) && decide (b.kind = BKind.exclusive)

/-- The predicate counted by `sharedCount`. -/
def sharedPred (p : SPlace) (b : Borrow) : Bool :=
  decide (b.place = p) && decide (b.kind = BKind.shared)

lemma exclCount_eq (bs : List Borrow) (p : SPlace) :
    exclCount bs p = bs.countP (exclPred p) := rfl

lemma sharedCount_eq (bs : List Borrow) (p : SPlace) :
    sharedCount bs p = bs.countP (sharedPred p) := rfl

lemma countP_filter_le (pr q : Borrow → Bool) (l : List Borrow) :
    (l.filter q).countP pr ≤ l.countP pr := by
  induction l with
  | nil => simp
  | cons b rest ih =>
      by_cases hq : q b = true
      · simp only [List.filter_cons, hq, if_pos, List.countP_cons]
        by_cases hp : pr b = true <;> simp [hp] <;> omega
      · simp only [List.filter_cons, List.countP_cons]
        simp only [Bool.not_eq_true] at hq
        simp [hq]
        by_cases hp : pr b = true <;> simp [hp] <;> omega

lemma trackerInv_of_filter (ts : TrackerState) (h : TrackerInv ts)
    (ts2 : TrackerState) (q : Borrow → Bool)
    (hb : ts2.borrows = ts.borrows.filter q) : TrackerInv ts2 := by
  intro p
  obtain ⟨h1, h2⟩ := h p
  constructor
  · calc exclCount ts2.borrows p = (ts.borrows.filter q).countP _ := by rw [hb]; rfl
      _ ≤ ts.borrows.countP _ := countP_filter_le _ _ _
      _ ≤ 1 := h1
  · rcases h2 with h2 | h2
    · left
      have hle := countP_filter_le (exclPred p) q ts.borrows
      rw [exclCount_eq] at h2 ⊢
      rw [hb]
      omega
    · right
      have hle := countP_filter_le (sharedPred p) q ts.borrows
      rw [sharedCount_eq] at h2 ⊢
      rw [hb]
      omega

lemma trackStep_preserves (ts : TrackerState) (op : TOp) (h : TrackerInv ts) :
    TrackerInv (trackStep ts op) := by
  cases op with
  | endB id =>
      exact trackerInv_of_filter ts h _ _ rfl
  | live p =>
      exact trackerInv_of_filter ts h _ _ rfl
  | move p =>
      intro q; exact h q
  | begin p k holder =>
      cases hm : memP ts.moved p with
      | true =>
          have : trackStep ts (TOp.begin p k holder) = ts := by
            simp [trackStep, beginBorrowT, hm]
          rw [this]; exact h
      | false =>
        cases hc : borrowConflict ts.borrows p k with
        | true =>
            have : trackStep ts (TOp.begin p k holder) = ts := by
              simp [trackStep, beginBorrowT, hm, hc]
            rw [this]; exact h
        | false =>
          have hstep : trackStep ts (TOp.begin p k holder) =
              ⟨⟨ts.fresh, p, k, holder⟩ :: ts.borrows, ts.moved, ts.fresh + 1⟩ := by
            simp [trackStep, beginBorrowT, hm, hc]
          rw [hstep]
          intro q
          have hc2 : ∀ b ∈ ts.borrows,
              ¬(b.place = p ∧ (b.kind = BKind.exclusive ∨ k = BKind.exclusive)) := by
            intro b hb hcontra
            have : borrowConflict ts.borrows p k = true := by
              simp only [borrowConflict, List.any_eq_true]
              exact ⟨b, hb, by
                simp only [Bool.and_eq_true, Bool.or_eq_true, decide_eq_true_eq]
                exact ⟨hcontra.1, hcontra.2⟩⟩
            rw [hc] at this
            exact Bool.false_ne_true this
          obtain ⟨h1, h2⟩ := h q
          by_cases hq : q = p
          · subst hq
            cases k with
            | exclusive =>
                have hnone : ∀ b ∈ ts.borrows, ¬ b.place = q := by
                  intro b hb hbp
                  exact hc2 b hb ⟨hbp, Or.inr rfl⟩
                have he : exclCount ts.borrows q = 0 := by
                  rw [exclCount_eq]
                  apply List.countP_eq_zero.mpr
                  intro b hb
                  simp only [exclPred, Bool.and_eq_true, decide_eq_true_eq, not_and]
                  intro hbp
                  exact absurd hbp (hnone b hb)
                have hs : sharedCount ts.borrows q = 0 := by
                  rw [sharedCount_eq]
                  apply List.countP_eq_zero.mpr
                  intro b hb
                  simp only [sharedPred, Bool.and_eq_true, decide_eq_true_eq, not_and]
                  intro hbp
                  exact absurd hbp (hnone b hb)
                constructor
                · rw [exclCount_eq, List.countP_cons]
                  rw [exclCount_eq] at he
                  simp [exclPred, he]
                · right
                  rw [sharedCount_eq, List.countP_cons]
                  rw [sharedCount_eq] at hs
                  simp [sharedPred, hs]
            | shared =>
                have he : exclCount ts.borrows q = 0 := by
                  rw [exclCount_eq]
                  apply List.countP_eq_zero.mpr
                  intro b hb
                  simp only [exclPred, Bool.and_eq_true, decide_eq_true_eq, not_and]
                  intro hbp hbk
                  exact hc2 b hb ⟨hbp, Or.inl hbk⟩
                constructor
                · rw [exclCount_eq, List.countP_cons]
                  rw [exclCount_eq] at he
                  simp [exclPred, he]
                · left
                  rw [exclCount_eq, List.countP_cons]
                  rw [exclCount_eq] at he
                  simp [exclPred, he]
          · have hne : (⟨ts.fresh, p, k, holder⟩ : Borrow).place ≠ q := by
              simp only [ne_eq]
              intro hcb
              exact hq hcb.symm
            constructor
            · rw [exclCount_eq, List.countP_cons]
              rw [exclCount_eq] at h1
              simp only [exclPred, Bool.and_eq_true, decide_eq_true_eq]
              simp [hne]
              exact h1
            · rcases h2 with h2 | h2
              · left
                rw [exclCount_eq, List.countP_cons]
                rw [exclCount_eq] at h2
                simp [exclPred, hne, h2]
              · right
                rw [sharedCount_eq, List.countP_cons]
                rw [sharedCount_eq] at h2
                simp [sharedPred, hne, h2]

lemma trackerInv_init : TrackerInv TrackerState.init := by
  intro p
  simp [TrackerState.init, exclCount, sharedCount]

lemma trackFoldl_preserves (ops : List TOp) :
    ∀ ts : TrackerState, TrackerInv ts → TrackerInv (ops.foldl trackStep ts) := by
  induction ops with
  | nil => intro ts h; exact h
  | cons op rest ih =>
      intro ts h
      exact ih (trackStep ts op) (trackStep_preserves ts op h)

/-- C1: the corpus program testcase6.rs (declare `let mut a: Box<i32> =
Box::new(32)`, bind `let b: &Box<i32> = &a`, display `**b`, assign `*a = 48`,
display `*a`) is accepted by the borrow checker and its evaluation produces
exactly the declared expected output sequence 32 then 48, in that order. -/
theorem c1_testcase6_accepted_and_output :
    checkProgramF 300 testcase6Program = Except.ok () ∧
    runF 300 testcase6Program = Except.ok [32, 48] :=
  ⟨rfl, rfl⟩

/-- C2: for the fragment `let mut a = 32; let b = &a; a = 64;` of borrow1.rs,
checking fails with the `AssignWhileBorrowed` diagnostic referencing `a`: the
assignment is rejected because the shared borrow held by `b` is still active
on `a`'s place. -/
theorem c2_borrow1_assign_while_borrowed :
    checkProgramF 300 borrow1Program =
      Except.error (Violation.assignWhileBorrowed ⟨"a", 0⟩) :=
  rfl

set_option maxRecDepth 20000 in
/-- C3: the recursive function `add` of recursion.rs is accepted by the
checker with no static special-casing of recursion, and running the program
evaluates `add(32, 64)` to 96, so the program outputs exactly 96. -/
theorem c3_recursion_accepted_and_output :
    checkProgramF 2000 recursionProgram = Except.ok () ∧
    runF 2000 recursionProgram = Except.ok [96] :=
  ⟨rfl, rfl⟩

/-- C4: for every place and every reachable tracker state (the result of any
sequence of borrow/release/move operations from the initial state, the
discipline shared by checking and evaluation), the tracker never records both
an active exclusive and an active shared borrow on the place, and never more
than one active exclusive borrow on it. -/
theorem c4_tracker_exclusive_shared_invariant :
    ∀ ops : List TOp, TrackerInv (trackRun ops) := by
  intro ops
  exact trackFoldl_preserves ops TrackerState.init trackerInv_init

/-- C5: a place in the moved state can never be read — the tracker's
`canRead` fails with `UseAfterMove` on any moved place in any state, a
program that reads a moved place is rejected by the checker with
`UseAfterMove`, and reading through the move's destination place (as
`*moved` after `let moved = owner` in additional/borrow.rs) is not a
use-after-move. -/
theorem c5_use_after_move_rejected :
    (∀ (ts : TrackerState) (p : SPlace), memP ts.moved p = true →
        canReadT ts p = Except.error (Violation.useAfterMove p)) ∧
    checkProgramF 300 useAfterMoveProgram =
      Except.error (Violation.useAfterMove ⟨"owner", 0⟩) ∧
    checkProgramF 300 moveDestProgram = Except.ok () := by
  refine ⟨?_, rfl, rfl⟩
  intro ts p h
  simp [canReadT, h]

/-- Witness for C5: the universal part applied to a concrete tracker state
in which the place `owner` is moved. -/
theorem c5_use_after_move_rejected_witness :
    canReadT ⟨[], [⟨"owner", 0⟩], 0⟩ ⟨"owner", 0⟩ =
      Except.error (Violation.useAfterMove ⟨"owner", 0⟩) :=
  c5_use_after_move_rejected.1 ⟨[], [⟨"owner", 0⟩], 0⟩ ⟨"owner", 0⟩ (by decide)

/-- C6: assignment through an exclusive reference mutates the referenced
place's stored value directly: the fragment `let mut a = 32; let b = &mut a;
*b = 48;` makes a subsequent read of `a` yield 48, and likewise writing 48
through an exclusive reference to a boxed owner makes a later read of the
owner's box yield 48. -/
theorem c6_mutation_through_exclusive_ref :
    runF 300 mutThroughRefProgram = Except.ok [48] ∧
    runF 300 boxMutThroughRefProgram = Except.ok [48] :=
  ⟨rfl, rfl⟩

/-- C7: under the lexical-scope extent rule, taking the exclusive borrow
`&mut owner` while the shared-borrow binding `immutable_ref` is still within
its lexical scope, as in additional/borrow.rs, is rejected by the checker
with the `ConflictingBorrow` diagnostic. -/
theorem c7_conflicting_borrow_lexical :
    checkProgramF 300 additionalBorrowProgram =
      Except.error (Violation.conflictingBorrow ⟨"owner", 0⟩) :=
  rfl

/-- C8: for every input program the pipeline is all-or-nothing: either the
program borrow-checks and the run yields a complete output sequence, or the
run fails with exactly one diagnostic and yields no output at all. -/
theorem c8_all_or_nothing :
    ∀ (fuel : Nat) (p : Program),
      (∃ out, runF fuel p = Except.ok out ∧ checkProgramF fuel p = Except.ok ()) ∨
      (∃ d, runF fuel p = Except.error d) := by
  intro fuel p
  cases hc : checkProgramF fuel p with
  | error d =>
      right
      exact ⟨d, by simp [runF, hc]⟩
  | ok u =>
      cases u
      cases he : evalProgramF fuel p with
      | ok out =>
          left
          refine ⟨out, ?_, rfl⟩
          simp [runF, hc, he]
      | error d =>
          right
          exact ⟨d, by simp [runF, hc, he]⟩

/-- C9: checking is deterministic and stateless across runs: for every
accepted program, running the checker twice yields "accepted" both times. -/
theorem c9_checking_idempotent :
    ∀ (fuel : Nat) (p : Program),
      checkProgramF fuel p = Except.ok () →
      checkRunPair fuel p = (Except.ok (), Except.ok ()) := by
  intro fuel p h
  simp [checkRunPair, h]

/-- Witness for C9: the accepted corpus program testcase6.rs checks as
accepted on both of two runs. -/
theorem c9_checking_idempotent_witness :
    checkRunPair 300 testcase6Program = (Except.ok (), Except.ok ()) :=
  c9_checking_idempotent 300 testcase6Program (by rfl)

/-- C10: for every integer `x` and every non-negative integer `y`, the
recursive function `add` of recursion.rs terminates (it is a total function,
its second argument counting down to 0) and returns `x + y`. -/
theorem c10_add_terminates_and_returns_sum :
    ∀ (x : Int) (y : Nat), addFun x y = x + y := by
  intro x y
  induction y generalizing x with
  | zero => simp [addFun]
  | succ n ih =>
      rw [addFun.eq_def]
      simp only [ih]
      push_cast
      ring

end RustSubset
